/-
Verification of the session identity & message-routing core of claudecodeui.

Shallow embedding of:
  - server/claude-sdk.js          (permission arbiter, active-session map, abort)
  - src/stores/sessionSignals.js  (signals session cache and the zustand session
                                   store concatenated in the same file)
  - the ChatInterface.jsx session-scoped message filter and the
    App.jsx replaceTemporarySession handler, both quoted verbatim in the
    dev log "Session ID 消息過濾機制修復" (src/unnamed/part_000)
  - the setChatMessages transcript/live merge quoted in
    docs/dev-logs/implementation-reports/2025-12-20-permission-ui-fixes.md

JavaScript values are modelled as follows: maps / plain objects keyed by
strings become association lists `List (String × _)` (object keys are unique,
so the wellformedness used where needed is `Nodup` of the key list); JS `Set`
iteration order is insertion order, so a Set becomes a `List String` without
duplicates; `Date.now()` becomes a `Nat` parameter; absent / `null` values
become `Option`.
-/
import Mathlib

namespace ClaudeCodeUI

/-! ### JavaScript `||` defaulting helpers -/

/-- `a || b` for an optional JS string: `undefined`, `null` and `""` are
falsy, every other string is truthy. -/
def jsOrStr (a : Option String) (b : String) : String :=
  match a with
  | some s => if s = "" then b else s
  | none => b

/-- `a || b` for an optional JS number restricted to naturals: `undefined`,
`null` and `0` are falsy. -/
def jsOrNat (a : Option Nat) (b : Nat) : Nat :=
  match a with
  | some n => if n = 0 then b else n
  | none => b

/-- `a || b` for an optional JS boolean. -/
def jsOrBool (a : Option Bool) (b : Bool) : Bool :=
  match a with
  | some x => if x then x else b
  | none => b

/-- `map.get(k)` / `obj[k]` on a string-keyed association list. -/
def assocLookup {α : Type} : List (String × α) → String → Option α
  | [], _ => none
  | e :: rest, k => if e.1 = k then some e.2 else assocLookup rest k

/-- `{ ...obj, [k]: v }` on a string-keyed object: replace in place when
the key exists, append otherwise (JS object key order). -/
def objUpsert {α : Type} (l : List (String × α)) (k : String) (v : α) :
    List (String × α) :=
  if l.any (fun e => e.1 = k) then
    l.map (fun e => if e.1 = k then (k, v) else e)
  else l ++ [(k, v)]

/-! ### Permission arbiter (server/claude-sdk.js)

`pendingPermissionRequests` is a `Map` from request id to
`{ resolve, reject, toolName, input, suggestions, toolUseID, timestamp }`.
The stored promise resolver is modelled by returning, next to the new map,
the `PermissionResult` that the code passes to `pending.resolve`. -/

/-- One suggested authorization rule, as received from the SDK.  The rule
content is opaque to the arbiter; only `destination` is ever rewritten by
callers, so the rest is a single opaque payload. -/
structure Suggestion where
  destination : String
  payload : String
deriving DecidableEq, Repr

/-- An entry of `pendingPermissionRequests`
(registerPermissionRequest, server/claude-sdk.js lines 41-47). -/
structure PendingRequest where
  toolName : String
  /-- opaque tool input captured at registration time -/
  input : String
  suggestions : List Suggestion
  toolUseID : String
  /-- `Date.now()` at registration -/
  timestamp : Nat
deriving DecidableEq, Repr

/-- The `PermissionResult` handed to the SDK's resolver. -/
inductive PermissionResult where
  | allow (updatedInput : String) (updatedPermissions : List Suggestion)
  | deny (message : String) (interrupt : Bool)
deriving DecidableEq, Repr

/-- The user's response `{ behavior, message, updatedPermissions, interrupt }`
as received over the websocket; absent fields are `none`. -/
structure PermissionResponse where
  behavior : String
  message : Option String
  updatedPermissions : Option (List Suggestion)
  interrupt : Option Bool
deriving DecidableEq, Repr

/-- `resolvePermissionRequest(requestId, response)`
(server/claude-sdk.js lines 55-84).  Returns the new pending map, the
boolean the function returns, and the `PermissionResult` passed to the
stored resolver (`none` when the request was not found). -/
def resolvePermissionRequest (pending : List (String × PendingRequest))
    (requestId : String) (response : PermissionResponse) :
    List (String × PendingRequest) × Bool × Option PermissionResult :=
  match assocLookup pending requestId with
  | none => (pending, false, none)
  | some p =>
    let pending' := pending.filter (fun e => e.1 ≠ requestId)
    if response.behavior = "allow" then
      (pending', true,
        some (.allow p.input (response.updatedPermissions.getD [])))
    else
      (pending', true,
        some (.deny (jsOrStr response.message "User denied the request")
          (response.interrupt ≠ some false)))

/-- The timeout test `now - request.timestamp > timeoutMs`
(server/claude-sdk.js line 93).  Truncated `Nat` subtraction agrees with the
JS comparison: a negative JS difference is never `> timeoutMs`, and a
truncated-to-zero difference is never `> timeoutMs` either. -/
def timedOut (now timeoutMs : Nat) (r : PendingRequest) : Bool :=
  decide (timeoutMs < now - r.timestamp)

/-- The result used for every timed-out request
(server/claude-sdk.js lines 95-99). -/
def timeoutResult : PermissionResult :=
  .deny "Permission request timed out" false

/-- Default `timeoutMs` of `cleanupTimedOutPermissions` (5 minutes). -/
def DEFAULT_PERMISSION_TIMEOUT_MS : Nat := 300000

/-- `cleanupTimedOutPermissions(timeoutMs)` (server/claude-sdk.js
lines 90-103): every entry older than the threshold is resolved with
`timeoutResult` and deleted.  Returns the new pending map and the list of
`(requestId, result)` resolver calls the sweep performed. -/
def cleanupTimedOutPermissions (now timeoutMs : Nat)
    (pending : List (String × PendingRequest)) :
    List (String × PendingRequest) × List (String × PermissionResult) :=
  (pending.filter (fun e => !timedOut now timeoutMs e.2),
   (pending.filter (fun e => timedOut now timeoutMs e.2)).map
     (fun e => (e.1, timeoutResult)))

/-! ### Active-session map and abort (server/claude-sdk.js) -/

/-- An entry of `activeSessions` (addSession, lines 189-197). -/
structure ActiveSession where
  startTime : Nat
  status : String
  tempImagePaths : List String
  tempDir : Option String
deriving DecidableEq, Repr

/-- `abortClaudeSDKSession(sessionId)` (server/claude-sdk.js lines 619-647).
`interruptThrows` models whether the remote `session.instance.interrupt()`
call rejects; when it does, control jumps to the `catch` block, which logs
and returns `false` without touching `activeSessions` or the temp files.
Returns the new map, the returned boolean, and the temp image paths handed
to `cleanupTempFiles`. -/
def abortClaudeSDKSession (interruptThrows : Bool)
    (activeSessions : List (String × ActiveSession)) (sessionId : String) :
    List (String × ActiveSession) × Bool × List String :=
  match assocLookup activeSessions sessionId with
  | none => (activeSessions, false, [])
  | some s =>
    if interruptThrows then
      (activeSessions, false, [])
    else
      (activeSessions.filter (fun e => e.1 ≠ sessionId), true,
        s.tempImagePaths)

/-! ### Session-scoped message routing (ChatInterface.jsx)

The fixed filter, quoted in src/unnamed/part_000 lines 48-63:

```
if (!isGlobalMessage && messageSessionId) {
  if (currentSessionId && messageSessionId !== currentSessionId) return;
  if (!currentSessionId) {
    const pendingSessionId = sessionStorage.getItem('pendingSessionId');
    if (pendingSessionId && messageSessionId !== pendingSessionId) return;
  }
}
```

`none` models a falsy id (`null` / `undefined` / absent). -/

/-- Returns `true` when the incoming websocket message is accepted for the
current view, `false` when the handler `return`s early (drops it). -/
def messageFilterAccept (isGlobalMessage : Bool)
    (messageSessionId currentSessionId pendingSessionId : Option String) :
    Bool :=
  match isGlobalMessage, messageSessionId with
  | false, some mid =>
    match currentSessionId with
    | some cur => mid == cur
    | none =>
      match pendingSessionId with
      | some pend => mid == pend
      | none => true
  | _, _ => true

/-! ### Transcript/live merge (ChatInterface.jsx sync effect)

Quoted in docs/dev-logs/implementation-reports/2025-12-20-permission-ui-fixes.md
lines 63-79: on a transcript (`sessionMessages`) change the displayed
`chatMessages` are replaced by `convertedMessages`, preserving the pending
(unresolved) permission-request messages of the previous display. -/

/-- A displayed chat message; everything the merge does not inspect is the
opaque `content`. -/
structure ChatMessage where
  isPermissionRequest : Bool
  permissionResolved : Bool
  content : String
deriving DecidableEq, Repr

/-- The filter `m.isPermissionRequest && !m.permissionResolved`. -/
def isPendingPermission (m : ChatMessage) : Bool :=
  m.isPermissionRequest && !m.permissionResolved

/-- The `setChatMessages` updater: keep pending permission requests of
`prev`, otherwise take the converted transcript wholesale. -/
def syncChatMessages (convertedMessages prev : List ChatMessage) :
    List ChatMessage :=
  if (prev.filter isPendingPermission).length > 0 then
    convertedMessages ++ prev.filter isPendingPermission
  else
    convertedMessages

/-! ### Identity rewrite (App.jsx `replaceTemporarySession`)

Quoted verbatim in src/unnamed/part_000 lines 296-315.  `activeSessions` is
a JS `Set`, iterated in insertion order; the handler deletes the FIRST id
that starts with `'new-session-'` (then `break`s) and adds the real id.
The triggering `session-created` event (server/claude-sdk.js lines 542-548)
carries only `{ type, sessionId }` — no correlation token. -/

/-- `sid.startsWith('new-session-')`, written on the underlying character
lists so that it evaluates inside the kernel; extensionally this is
`String.startsWith`. -/
def isTempSessionId (sid : String) : Bool :=
  "new-session-".data.isPrefixOf sid.data

/-- Deletes the first element starting with `new-session-` (the `for … of`
loop with `break`). -/
def removeFirstTemp : List String → List String
  | [] => []
  | sid :: rest =>
    if isTempSessionId sid then rest
    else sid :: removeFirstTemp rest

/-- `Set.add`: appends iff the element is not already present. -/
def setAdd (l : List String) (x : String) : List String :=
  if x ∈ l then l else l ++ [x]

/-- `replaceTemporarySession(realSessionId)` on the `activeSessions` set. -/
def replaceTemporarySession (activeSessions : List String)
    (realSessionId : String) : List String :=
  setAdd (removeFirstTemp activeSessions) realSessionId

/-! ### Session cache, signals store (src/stores/sessionSignals.js, first part)

`sessionCache` is a plain object `{ sessionId: { messages, pagination } }`,
modelled as an association list in object key order (existing keys keep
their position under spread-update, new keys are appended);
`accessOrder` is an array with the most recently used id last. -/

/-- Raw transcript messages are opaque payloads to the cache. -/
abbrev RawMessage := String

structure Pagination where
  offset : Nat
  hasMore : Bool
  total : Nat
deriving DecidableEq, Repr

/-- A possibly-partial `pagination` argument (absent fields are `none`;
the code applies `||` defaulting). -/
structure PaginationInput where
  offset : Option Nat
  hasMore : Option Bool
  total : Option Nat
deriving DecidableEq, Repr

structure CacheEntry where
  messages : List RawMessage
  pagination : Pagination
deriving DecidableEq, Repr

structure SignalsState where
  currentSessionId : Option String
  sessionCache : List (String × CacheEntry)
  accessOrder : List String
deriving DecidableEq, Repr

def MAX_CACHED_SESSIONS : Nat := 10

/-- `updateAccessOrder(sessionId)` (signals store, lines 160-166):
remove the id, push it last.  The empty string models a falsy id for the
`if (!sessionId) return` guard. -/
def sigUpdateAccessOrder (order : List String) (sessionId : String) :
    List String :=
  if sessionId = "" then order
  else order.filter (fun id => id ≠ sessionId) ++ [sessionId]

/-- `clearSession(sessionId)` (signals store, lines 138-144). -/
def sigClearSession (st : SignalsState) (sessionId : String) : SignalsState :=
  { st with
    sessionCache := st.sessionCache.filter (fun e => e.1 ≠ sessionId),
    accessOrder := st.accessOrder.filter (fun id => id ≠ sessionId) }

/-- `evictIfNeeded()` (signals store, lines 171-180): when the access order
exceeds the capacity, clear `order[0]` — unconditionally, with no exemption
for the currently-viewed session. -/
def sigEvictIfNeeded (st : SignalsState) : SignalsState :=
  if st.accessOrder.length ≤ MAX_CACHED_SESSIONS then st
  else
    match st.accessOrder with
    | [] => st
    | toEvict :: _ => sigClearSession st toEvict

/-- `setSessionMessages(sessionId, messages, pagination)` (signals store,
lines 76-91): wholesale replace, touch recency, then check eviction. -/
def sigSetSessionMessages (st : SignalsState) (sessionId : String)
    (messages : List RawMessage) (pagination : PaginationInput) :
    SignalsState :=
  let st1 : SignalsState :=
    { st with
      sessionCache := objUpsert st.sessionCache sessionId
        { messages := messages,
          pagination :=
            { offset := jsOrNat pagination.offset 0,
              hasMore := jsOrBool pagination.hasMore false,
              total := jsOrNat pagination.total messages.length } } }
  let st2 : SignalsState :=
    { st1 with accessOrder := sigUpdateAccessOrder st1.accessOrder sessionId }
  sigEvictIfNeeded st2

/-! ### Session cache, zustand store (src/stores/sessionSignals.js, second
part, `useSessionStore`) -/

structure ZEntry where
  messages : List RawMessage
  lastAccess : Nat
  pagination : Pagination
deriving DecidableEq, Repr

structure ZState where
  sessionData : List (String × ZEntry)
  viewingSessionId : Option String
  accessOrder : List String
deriving DecidableEq, Repr

/-- `_updateAccessOrder(sessionId)` (zustand store, lines 342-348). -/
def zUpdateAccessOrder (order : List String) (sessionId : String) :
    List String :=
  order.filter (fun id => id ≠ sessionId) ++ [sessionId]

/-- The `for (const sessionId of accessOrder)` collection loop of
`_evictIfNeeded` (zustand store, lines 358-364): skip the viewed session,
push the candidate, and `break` once `cachedCount - toEvict.length` is
within capacity.  `acc` is `toEvict.length` so far. -/
def collectToEvict (viewing : Option String) (cachedCount : Nat) :
    List String → Nat → List String
  | [], _ => []
  | sid :: rest, acc =>
    if some sid = viewing then collectToEvict viewing cachedCount rest acc
    else if cachedCount - (acc + 1) ≤ MAX_CACHED_SESSIONS then [sid]
    else sid :: collectToEvict viewing cachedCount rest (acc + 1)

/-- `_evictIfNeeded()` (zustand store, lines 351-385). -/
def zEvictIfNeeded (st : ZState) : ZState :=
  let cachedCount := st.sessionData.length
  if cachedCount ≤ MAX_CACHED_SESSIONS then st
  else
    let toEvict := collectToEvict st.viewingSessionId cachedCount
      st.accessOrder 0
    if toEvict = [] then st
    else
      { st with
        sessionData := toEvict.foldl
          (fun m sid => m.filter (fun e => e.1 ≠ sid)) st.sessionData,
        accessOrder := toEvict.foldl
          (fun l sid => l.erase sid) st.accessOrder }

/-- `setSessionMessages(sessionId, messages, pagination)` (zustand store,
lines 205-226).  The empty string models a falsy id for the
`if (!sessionId) return` guard; a JS array (even empty) is truthy, so
`messages || []` is `messages` itself. -/
def zSetSessionMessages (now : Nat) (st : ZState) (sessionId : String)
    (messages : List RawMessage) (pagination : PaginationInput) : ZState :=
  if sessionId = "" then st
  else
    let st1 : ZState :=
      { st with
        sessionData := objUpsert st.sessionData sessionId
          { messages := messages,
            lastAccess := now,
            pagination :=
              { offset := jsOrNat pagination.offset 0,
                hasMore := jsOrBool pagination.hasMore false,
                total := jsOrNat pagination.total messages.length } } }
    let st2 : ZState :=
      { st1 with
        accessOrder := zUpdateAccessOrder st1.accessOrder sessionId }
    zEvictIfNeeded st2

/-- `getSessionMessages(sessionId)` (zustand store, lines 277-280). -/
def zGetSessionMessages (st : ZState) (sessionId : String) :
    List RawMessage :=
  match assocLookup st.sessionData sessionId with
  | some e => e.messages
  | none => []

/-- Wellformedness maintained by the store's update paths: the access order
has no duplicates and enumerates exactly the cached session ids. -/
def ZWF (st : ZState) : Prop :=
  st.accessOrder.Nodup ∧
  st.accessOrder.Perm (st.sessionData.map Prod.fst)

instance (st : ZState) : Decidable (ZWF st) := by
  unfold ZWF; infer_instance

/-! ### Permission protocol, per-session sequencing

`createCanUseTool` (server/claude-sdk.js lines 428-478) registers a fresh
request id in `pendingPermissionRequests` and returns `responsePromise`,
which the SDK awaits before the session's tool flow continues.  The
per-session sequencing itself lives in the external SDK, so it is
modelled from the spec (§5): a session's events are processed as a single
logical stream, and waiting for the human decision is the session's only
suspension, so a session with an outstanding request cannot issue a second
one before the first resolves.  `resolvePermissionRequest`,
`cleanupTimedOutPermissions` and the abort listener all remove exactly the
entry of the resolved request id. -/

/-- An event of the permission protocol.  The pending set records, for each
outstanding request, the request id and the owning session. -/
inductive PermEvent where
  | request (sessionId requestId : String)
  | resolve (requestId : String)
deriving DecidableEq, Repr

/-- One protocol step on the pending set (entries are
`(requestId, sessionId)`).  `hfresh` is the uniqueness of generated request
ids; `hblocked` is the spec §5 sequencing: the requesting session is not
already awaiting a decision. -/
inductive PermStep :
    List (String × String) → PermEvent → List (String × String) → Prop
  | request (st : List (String × String)) (sid rid : String)
      (hfresh : ∀ e ∈ st, e.1 ≠ rid)
      (hblocked : ∀ e ∈ st, e.2 ≠ sid) :
      PermStep st (.request sid rid) (st ++ [(rid, sid)])
  | resolve (st : List (String × String)) (rid : String) :
      PermStep st (.resolve rid) (st.filter (fun e => e.1 ≠ rid))

/-- Pending sets reachable from the empty initial map. -/
inductive PermReachable : List (String × String) → Prop
  | init : PermReachable []
  | step {st st' : List (String × String)} {ev : PermEvent} :
      PermReachable st → PermStep st ev st' → PermReachable st'

/-! ### Helper lemmas on association lists -/

theorem assocLookup_filter_ne {α : Type} (l : List (String × α))
    (k s : String) (hks : k ≠ s) :
    assocLookup (l.filter (fun e => e.1 ≠ s)) k = assocLookup l k := by
  induction l with
  | nil => rfl
  | cons a l ih =>
    by_cases h : a.1 = s
    · rw [List.filter_cons, if_neg (by simp [h])]
      rw [ih]
      have hak : ¬ a.1 = k := fun hk => hks (hk ▸ h ▸ rfl)
      simp only [assocLookup, if_neg hak]
    · rw [List.filter_cons, if_pos (by simp [h])]
      by_cases hk : a.1 = k
      · simp only [assocLookup, if_pos hk]
      · simp only [assocLookup, if_neg hk]
        exact ih

theorem assocLookup_filter_self {α : Type} (l : List (String × α))
    (k : String) :
    assocLookup (l.filter (fun e => e.1 ≠ k)) k = none := by
  induction l with
  | nil => rfl
  | cons a l ih =>
    by_cases h : a.1 = k
    · rw [List.filter_cons, if_neg (by simp [h])]
      exact ih
    · rw [List.filter_cons, if_pos (by simp [h])]
      simp only [assocLookup, if_neg h]
      exact ih

theorem assocLookup_foldl_filter {α : Type} (ts : List String) :
    ∀ (l : List (String × α)) (k : String), k ∉ ts →
      assocLookup (ts.foldl (fun m sid => m.filter (fun e => e.1 ≠ sid)) l) k
        = assocLookup l k := by
  induction ts with
  | nil => intro l k _; rfl
  | cons s ts ih =>
    intro l k hk
    have hks : k ≠ s := fun h => hk (h ▸ List.mem_cons_self s ts)
    have hkts : k ∉ ts := fun h => hk (List.mem_cons_of_mem s h)
    calc assocLookup
          ((s :: ts).foldl (fun m sid => m.filter (fun e => e.1 ≠ sid)) l) k
        = assocLookup (ts.foldl (fun m sid => m.filter (fun e => e.1 ≠ sid))
            (l.filter (fun e => e.1 ≠ s))) k := rfl
      _ = assocLookup (l.filter (fun e => e.1 ≠ s)) k := ih _ k hkts
      _ = assocLookup l k := assocLookup_filter_ne l k s hks

theorem foldl_filter_eq_filter {α : Type} (ts : List String) :
    ∀ l : List (String × α),
      ts.foldl (fun m sid => m.filter (fun e => e.1 ≠ sid)) l =
        l.filter (fun e => e.1 ∉ ts) := by
  induction ts with
  | nil =>
    intro l
    simp
  | cons s ts ih =>
    intro l
    calc (s :: ts).foldl (fun m sid => m.filter (fun e => e.1 ≠ sid)) l
        = ts.foldl (fun m sid => m.filter (fun e => e.1 ≠ sid))
            (l.filter (fun e => e.1 ≠ s)) := rfl
      _ = (l.filter (fun e => e.1 ≠ s)).filter (fun e => e.1 ∉ ts) := ih _
      _ = l.filter (fun e => e.1 ∉ s :: ts) := by
          rw [List.filter_filter]
          refine List.filter_congr ?_
          intro e _
          by_cases h1 : e.1 = s <;> by_cases h2 : e.1 ∈ ts <;>
            simp [h1, h2]

theorem nodupKeys_mem_eq {α : Type} (l : List (String × α))
    (hnd : (l.map Prod.fst).Nodup) (k : String) (a b : α)
    (ha : (k, a) ∈ l) (hb : (k, b) ∈ l) : a = b := by
  induction l with
  | nil => cases ha
  | cons e l ih =>
    obtain ⟨ke, ve⟩ := e
    rw [List.map_cons, List.nodup_cons] at hnd
    rcases List.mem_cons.mp ha with ha1 | ha1 <;>
      rcases List.mem_cons.mp hb with hb1 | hb1
    · injection ha1 with hk1 hv1
      injection hb1 with hk2 hv2
      rw [hv1, hv2]
    · exfalso
      injection ha1 with hk1 hv1
      subst hk1
      exact hnd.1 (List.mem_map.mpr ⟨(k, b), hb1, rfl⟩)
    · exfalso
      injection hb1 with hk2 hv2
      subst hk2
      exact hnd.1 (List.mem_map.mpr ⟨(k, a), ha1, rfl⟩)
    · exact ih hnd.2 ha1 hb1

theorem length_filter_add_length_filter_not {α : Type} (l : List α)
    (p : α → Bool) :
    (l.filter p).length + (l.filter (fun a => !p a)).length = l.length := by
  induction l with
  | nil => rfl
  | cons a l ih => by_cases h : p a <;> simp [List.filter_cons, h] <;> omega

theorem filter_mem_of_sublist {l t : List String} (hnd : l.Nodup)
    (hsl : t.Sublist l) : l.filter (fun x => x ∈ t) = t := by
  induction hsl with
  | slnil => rfl
  | cons a hsl ih =>
    rename_i t' l'
    rw [List.nodup_cons] at hnd
    have hat : a ∉ t' := fun h => hnd.1 (hsl.subset h)
    rw [List.filter_cons, if_neg (by simpa using hat)]
    exact ih hnd.2
  | cons₂ a hsl ih =>
    rename_i t' l'
    rw [List.nodup_cons] at hnd
    rw [List.filter_cons, if_pos (by simp)]
    have hcong : ∀ x ∈ l',
        (decide (x ∈ a :: t')) = (decide (x ∈ t')) := by
      intro x hx
      have hxa : x ≠ a := fun h => hnd.1 (h ▸ hx)
      simp [List.mem_cons, hxa]
    rw [List.filter_congr hcong, ih hnd.2]

theorem nodup_filter_eq_singleton (l : List String) (hnd : l.Nodup)
    (v : String) :
    l.filter (fun x => x = v) = if v ∈ l then [v] else [] := by
  induction l with
  | nil => rfl
  | cons a l ih =>
    rw [List.nodup_cons] at hnd
    by_cases h : a = v
    · subst h
      have hfl : l.filter (fun x => x = a) = [] :=
        List.filter_eq_nil_iff.mpr (fun x hx => by
          simp only [decide_eq_true_eq]
          exact fun hxa => hnd.1 (hxa ▸ hx))
      rw [List.filter_cons, if_pos (by simp), hfl,
        if_pos (List.mem_cons_self a l)]
    · rw [List.filter_cons, if_neg (by simp [h]), ih hnd.2]
      by_cases hv : v ∈ l
      · rw [if_pos hv, if_pos (List.mem_cons_of_mem a hv)]
      · rw [if_neg hv, if_neg ?_]
        intro hmem
        rcases List.mem_cons.mp hmem with h1 | h1
        · exact h h1.symm
        · exact hv h1

theorem map_fst_filter_key {α : Type} (l : List (String × α))
    (p : String → Bool) :
    (l.filter (fun e => p e.1)).map Prod.fst =
      (l.map Prod.fst).filter p := by
  induction l with
  | nil => rfl
  | cons a l ih =>
    by_cases h : p a.1 <;> simp [List.filter_cons, h, ih]


/-! ### Claim theorems -/

/-- Claim C8: calling resolve on a requestId that is unknown, or on one that
was already resolved (whose entry the earlier resolve deleted), returns
false ("not found") instead of raising, and leaves the pending-request map
unchanged — no entry added, removed or modified, and no resolver called. -/
theorem resolvePermissionRequest_notFound_noop
    (pending pending0 : List (String × PendingRequest)) (rid : String)
    (resp resp' : PermissionResponse) (p0 : PendingRequest)
    (h : assocLookup pending rid = none)
    (h0 : assocLookup pending0 rid = some p0) :
    resolvePermissionRequest pending rid resp = (pending, false, none) ∧
    resolvePermissionRequest
        (resolvePermissionRequest pending0 rid resp').1 rid resp =
      ((resolvePermissionRequest pending0 rid resp').1, false, none) := by
  constructor
  · unfold resolvePermissionRequest
    rw [h]
  · have h1 : (resolvePermissionRequest pending0 rid resp').1 =
        pending0.filter (fun e => e.1 ≠ rid) := by
      unfold resolvePermissionRequest
      rw [h0]
      by_cases hb : resp'.behavior = "allow" <;> simp [hb]
    rw [h1]
    unfold resolvePermissionRequest
    rw [assocLookup_filter_self]

def wPendingA : PendingRequest :=
  { toolName := "Write", input := "write file.txt", suggestions := [],
    toolUseID := "toolu_a", timestamp := 0 }

/-- Witness for C8 at a concrete map: `perm_a` is unknown in a map holding
only `perm_b`, and `perm_a` is resolved once in its own map and then
resolved again. -/
theorem resolvePermissionRequest_notFound_noop_witness :
    resolvePermissionRequest [("perm_b", wPendingA)] "perm_a"
        { behavior := "allow", message := none,
          updatedPermissions := none, interrupt := none } =
      ([("perm_b", wPendingA)], false, none) ∧
    resolvePermissionRequest
        (resolvePermissionRequest [("perm_a", wPendingA)] "perm_a"
          { behavior := "deny", message := none,
            updatedPermissions := none, interrupt := none }).1 "perm_a"
        { behavior := "allow", message := none,
          updatedPermissions := none, interrupt := none } =
      ((resolvePermissionRequest [("perm_a", wPendingA)] "perm_a"
          { behavior := "deny", message := none,
            updatedPermissions := none, interrupt := none }).1,
        false, none) :=
  resolvePermissionRequest_notFound_noop [("perm_b", wPendingA)]
    [("perm_a", wPendingA)] "perm_a"
    { behavior := "allow", message := none,
      updatedPermissions := none, interrupt := none }
    { behavior := "deny", message := none,
      updatedPermissions := none, interrupt := none }
    wPendingA (by decide) (by decide)

/-- Claim C10: when a pending request is resolved as allow, the result
carries the tool input exactly as registered (`updatedInput = pending.input`,
unchanged by anything in the response), while `updatedPermissions` comes
from the response (defaulting to the empty list). -/
theorem resolvePermissionRequest_allow_input_frame
    (pending : List (String × PendingRequest)) (rid : String)
    (resp : PermissionResponse) (p : PendingRequest)
    (h : assocLookup pending rid = some p)
    (hb : resp.behavior = "allow") :
    resolvePermissionRequest pending rid resp =
      (pending.filter (fun e => e.1 ≠ rid), true,
        some (PermissionResult.allow p.input
          (resp.updatedPermissions.getD []))) := by
  unfold resolvePermissionRequest
  rw [h]
  simp [hb]

/-- Witness for C10: an allow response carrying replacement rules cannot
change the registered input. -/
theorem resolvePermissionRequest_allow_input_frame_witness :
    resolvePermissionRequest [("perm_a", wPendingA)] "perm_a"
        { behavior := "allow", message := some "ignored",
          updatedPermissions :=
            some [{ destination := "localSettings", payload := "rule" }],
          interrupt := none } =
      ([], true,
        some (PermissionResult.allow "write file.txt"
          [{ destination := "localSettings", payload := "rule" }])) := by
  have h := resolvePermissionRequest_allow_input_frame
    [("perm_a", wPendingA)] "perm_a"
    { behavior := "allow", message := some "ignored",
      updatedPermissions :=
        some [{ destination := "localSettings", payload := "rule" }],
      interrupt := none }
    wPendingA (by decide) (by decide)
  rw [h]
  decide

/-- Claim C5: every pending permission request strictly older than the
timeout threshold is resolved by the sweep, exactly once, with a deny
carrying `interrupt = false` and the message "Permission request timed out"
(the definition `timeoutResult`), and its entry leaves the pending set;
requests at or under the threshold are kept and not resolved. -/
theorem cleanupTimedOutPermissions_spec (now timeoutMs : Nat)
    (pending : List (String × PendingRequest))
    (hnd : (pending.map Prod.fst).Nodup)
    (rid : String) (r : PendingRequest) (hmem : (rid, r) ∈ pending) :
    (timeoutMs < now - r.timestamp →
      (∀ e ∈ (cleanupTimedOutPermissions now timeoutMs pending).1,
        e.1 ≠ rid) ∧
      (rid, timeoutResult) ∈
        (cleanupTimedOutPermissions now timeoutMs pending).2) ∧
    ((cleanupTimedOutPermissions now timeoutMs pending).2.map
      Prod.fst).Nodup ∧
    (¬ timeoutMs < now - r.timestamp →
      (rid, r) ∈ (cleanupTimedOutPermissions now timeoutMs pending).1 ∧
      ∀ e ∈ (cleanupTimedOutPermissions now timeoutMs pending).2,
        e.1 ≠ rid) := by
  refine ⟨?_, ?_, ?_⟩
  · intro ht
    constructor
    · intro e he heq
      have he1 := List.mem_filter.mp he
      have hepair : (rid, e.2) ∈ pending := by
        have : e = (rid, e.2) := by
          cases e; simp at heq; simp [heq]
        exact this ▸ he1.1
      have := nodupKeys_mem_eq pending hnd rid e.2 r hepair hmem
      rw [this] at he1
      have hto : timedOut now timeoutMs r = true := by
        simp [timedOut, ht]
      simp [hto] at he1
    · refine List.mem_map.mpr ⟨(rid, r), ?_, rfl⟩
      refine List.mem_filter.mpr ⟨hmem, ?_⟩
      simp [timedOut, ht]
  · have hmm : ((pending.filter
        (fun e => timedOut now timeoutMs e.2)).map
          (fun e => (e.1, timeoutResult))).map Prod.fst =
        (pending.filter (fun e => timedOut now timeoutMs e.2)).map
          Prod.fst := by
      rw [List.map_map]
      rfl
    show (((pending.filter (fun e => timedOut now timeoutMs e.2)).map
      (fun e => (e.1, timeoutResult))).map Prod.fst).Nodup
    rw [hmm]
    exact List.Nodup.sublist
      (List.Sublist.map Prod.fst (List.filter_sublist pending)) hnd
  · intro ht
    constructor
    · refine List.mem_filter.mpr ⟨hmem, ?_⟩
      simp [timedOut, ht]
    · intro e he heq
      rcases List.mem_map.mp he with ⟨x, hx, hxe⟩
      have hx1 := List.mem_filter.mp hx
      have hxid : x.1 = rid := by
        rw [← hxe] at heq
        exact heq
      have hxpair : (rid, x.2) ∈ pending := by
        have : x = (rid, x.2) := by
          cases x; simp at hxid; simp [hxid]
        exact this ▸ hx1.1
      have := nodupKeys_mem_eq pending hnd rid x.2 r hxpair hmem
      rw [this] at hx1
      have : ¬ timedOut now timeoutMs r = true := by
        simp [timedOut, ht]
      exact this hx1.2

def wPendingB : PendingRequest :=
  { toolName := "Read", input := "read file.txt", suggestions := [],
    toolUseID := "toolu_b", timestamp := 200000 }

/-- Witness for C5 at `now = 400000` with the default 5-minute threshold:
`perm_a` (age 400000 ms) is swept, `perm_b` (age 200000 ms) is kept. -/
theorem cleanupTimedOutPermissions_spec_witness :
    ((∀ e ∈ (cleanupTimedOutPermissions 400000 DEFAULT_PERMISSION_TIMEOUT_MS
        [("perm_a", wPendingA), ("perm_b", wPendingB)]).1, e.1 ≠ "perm_a") ∧
      ("perm_a", timeoutResult) ∈
        (cleanupTimedOutPermissions 400000 DEFAULT_PERMISSION_TIMEOUT_MS
          [("perm_a", wPendingA), ("perm_b", wPendingB)]).2) ∧
    (("perm_b", wPendingB) ∈
        (cleanupTimedOutPermissions 400000 DEFAULT_PERMISSION_TIMEOUT_MS
          [("perm_a", wPendingA), ("perm_b", wPendingB)]).1 ∧
      ∀ e ∈ (cleanupTimedOutPermissions 400000 DEFAULT_PERMISSION_TIMEOUT_MS
          [("perm_a", wPendingA), ("perm_b", wPendingB)]).2, e.1 ≠ "perm_b") := by
  constructor
  · exact (cleanupTimedOutPermissions_spec 400000
      DEFAULT_PERMISSION_TIMEOUT_MS
      [("perm_a", wPendingA), ("perm_b", wPendingB)] (by decide)
      "perm_a" wPendingA (by decide)).1 (by decide)
  · exact (cleanupTimedOutPermissions_spec 400000
      DEFAULT_PERMISSION_TIMEOUT_MS
      [("perm_a", wPendingA), ("perm_b", wPendingB)] (by decide)
      "perm_b" wPendingB (by decide)).2.2 (by decide)

def demoAbortSession : ActiveSession :=
  { startTime := 0, status := "active",
    tempImagePaths := ["/proj/.tmp/images/1/image_0.png"],
    tempDir := some "/proj/.tmp/images/1" }

/-- Claim C6 counterexample: when the remote interrupt call throws, the
abort path returns false from the `catch` block without removing the
session from `activeSessions` and without releasing its temp files — the
claimed unconditional local cleanup does not happen. -/
theorem abortClaudeSDKSession_counterexample :
    abortClaudeSDKSession true [("abc123", demoAbortSession)] "abc123" =
      ([("abc123", demoAbortSession)], false, []) := by decide

/-- Claim C6 (amended): local cleanup happens exactly when the remote
interrupt call succeeds: then the session's entry is removed and its temp
image paths are passed to cleanup, and abort returns true; when the
interrupt call throws, the map is left unchanged, nothing is cleaned, and
abort returns false. -/
theorem abortClaudeSDKSession_amended
    (sessions : List (String × ActiveSession)) (sid : String)
    (s : ActiveSession) (h : assocLookup sessions sid = some s) :
    abortClaudeSDKSession false sessions sid =
      (sessions.filter (fun e => e.1 ≠ sid), true, s.tempImagePaths) ∧
    assocLookup (abortClaudeSDKSession false sessions sid).1 sid = none ∧
    abortClaudeSDKSession true sessions sid = (sessions, false, []) := by
  have h1 : abortClaudeSDKSession false sessions sid =
      (sessions.filter (fun e => e.1 ≠ sid), true, s.tempImagePaths) := by
    unfold abortClaudeSDKSession
    rw [h]
    simp
  refine ⟨h1, ?_, ?_⟩
  · rw [h1]
    exact assocLookup_filter_self sessions sid
  · unfold abortClaudeSDKSession
    rw [h]
    simp

/-- Witness for the amended C6 at a concrete session map. -/
theorem abortClaudeSDKSession_amended_witness :
    abortClaudeSDKSession false [("abc123", demoAbortSession)] "abc123" =
      ([], true, ["/proj/.tmp/images/1/image_0.png"]) ∧
    abortClaudeSDKSession true [("abc123", demoAbortSession)] "abc123" =
      ([("abc123", demoAbortSession)], false, []) := by
  have h := abortClaudeSDKSession_amended [("abc123", demoAbortSession)]
    "abc123" demoAbortSession (by decide)
  exact ⟨by rw [h.1]; decide, h.2.2⟩

/-- Claim C3: for a session-scoped event carrying id `mid`, the view
accepts it iff it matches the established final id when one exists;
otherwise iff it matches the pending real id when one exists; otherwise
(placeholder-only slot) it is accepted provisionally; all other
session-scoped events are dropped. -/
theorem messageFilterAccept_routing (mid : String)
    (cur pend : Option String) :
    (∀ x, cur = some x →
      (messageFilterAccept false (some mid) cur pend = true ↔ mid = x)) ∧
    (cur = none → ∀ p, pend = some p →
      (messageFilterAccept false (some mid) cur pend = true ↔ mid = p)) ∧
    (cur = none → pend = none →
      messageFilterAccept false (some mid) cur pend = true) := by
  refine ⟨?_, ?_, ?_⟩
  · intro x hx
    subst hx
    simp [messageFilterAccept]
  · intro hc p hp
    subst hc
    subst hp
    simp [messageFilterAccept]
  · intro hc hp
    subst hc
    subst hp
    rfl

/-- Witness for C3: a matching event is accepted against the pending id and
a non-matching event from a sibling session is dropped. -/
theorem messageFilterAccept_routing_witness :
    messageFilterAccept false (some "abc123") none (some "abc123") = true ∧
    messageFilterAccept false (some "abc123") none (some "xyz789") = false := by
  constructor
  · exact ((messageFilterAccept_routing "abc123" none
      (some "abc123")).2.1 rfl "abc123" rfl).mpr rfl
  · have h := (messageFilterAccept_routing "abc123" none
      (some "xyz789")).2.1 rfl "xyz789" rfl
    cases hacc : messageFilterAccept false (some "abc123") none
      (some "xyz789")
    · rfl
    · exact absurd (h.mp hacc) (by decide)

/-- Claim C4: the merge computes
`displayed = transcriptSnapshot ++ (live filtered to pending permission
requests)`, and it is idempotent on unchanged inputs whenever the
transcript snapshot itself contains no pending permission-request message
(converted JSONL never does: the CLI does not persist permission requests,
as the implementation report records). -/
theorem syncChatMessages_idempotent (converted prev : List ChatMessage)
    (hT : ∀ m ∈ converted, isPendingPermission m = false) :
    syncChatMessages converted (syncChatMessages converted prev) =
      syncChatMessages converted prev ∧
    syncChatMessages converted prev =
      converted ++ prev.filter isPendingPermission := by
  have hbase : ∀ l : List ChatMessage,
      syncChatMessages converted l =
        converted ++ l.filter isPendingPermission := by
    intro l
    unfold syncChatMessages
    rcases Nat.eq_zero_or_pos (l.filter isPendingPermission).length
      with h | h
    · rw [List.length_eq_zero] at h
      simp [h]
    · rw [if_pos h]
  have hfc : converted.filter isPendingPermission = [] :=
    List.filter_eq_nil_iff.mpr (fun m hm => by simp [hT m hm])
  have hff : (prev.filter isPendingPermission).filter isPendingPermission
      = prev.filter isPendingPermission :=
    List.filter_eq_self.mpr (fun a ha => List.of_mem_filter ha)
  constructor
  · rw [hbase, hbase, List.filter_append, hfc, List.nil_append, hff]
  · exact hbase prev

/-- Witness for C4 on a concrete transcript and live list containing one
pending permission request. -/
theorem syncChatMessages_idempotent_witness :
    syncChatMessages
        [{ isPermissionRequest := false, permissionResolved := false,
           content := "hi" }]
        (syncChatMessages
          [{ isPermissionRequest := false, permissionResolved := false,
             content := "hi" }]
          [{ isPermissionRequest := true, permissionResolved := false,
             content := "May I write?" }]) =
      syncChatMessages
        [{ isPermissionRequest := false, permissionResolved := false,
           content := "hi" }]
        [{ isPermissionRequest := true, permissionResolved := false,
           content := "May I write?" }] :=
  (syncChatMessages_idempotent
    [{ isPermissionRequest := false, permissionResolved := false,
       content := "hi" }]
    [{ isPermissionRequest := true, permissionResolved := false,
       content := "May I write?" }]
    (by decide)).1

/-- Claim C1 counterexample: with the two placeholders
`new-session-1000` (p1, first conversation) and `new-session-2000`
(p2, second conversation) both in flight, delivering p2's rewrite
(real id `r2`) first makes `replaceTemporarySession` delete p1 — the
first `new-session-` id in set-insertion order — so p1 is associated with
`r2` and, at the next rewrite, p2 with `r1`: exactly the swap the claim
forbids.  The `session-created` event carries only `{type, sessionId}`,
so no correlation token exists to prevent this. -/
theorem replaceTemporarySession_counterexample :
    replaceTemporarySession ["new-session-1000", "new-session-2000"] "r2" =
      ["new-session-2000", "r2"] ∧
    replaceTemporarySession ["new-session-2000", "r2"] "r1" =
      ["r2", "r1"] := by decide

theorem removeFirstTemp_skip (pre post : List String) (p : String)
    (hp : isTempSessionId p = true)
    (hpre : ∀ x ∈ pre, isTempSessionId x = false) :
    removeFirstTemp (pre ++ p :: post) = pre ++ post := by
  induction pre with
  | nil => simp [removeFirstTemp, hp]
  | cons a l ih =>
    have ha := hpre a (List.mem_cons_self a l)
    simp only [List.cons_append, removeFirstTemp, ha, Bool.false_eq_true,
      if_false, List.append_eq]
    rw [ih (fun x hx => hpre x (List.mem_cons_of_mem a hx))]

/-- Claim C1 (amended): `replaceTemporarySession` deletes the first
`new-session-` placeholder in set-insertion order and appends the real id;
the association is therefore correct exactly when the placeholder of the
conversation that triggered the rewrite is the first placeholder in the
set — in particular whenever at most one placeholder is in flight — and is
swapped otherwise (see the counterexample). -/
theorem replaceTemporarySession_first_placeholder
    (pre post : List String) (p r : String)
    (hp : isTempSessionId p = true)
    (hpre : ∀ x ∈ pre, isTempSessionId x = false)
    (hr : r ∉ pre ++ p :: post) :
    replaceTemporarySession (pre ++ p :: post) r = (pre ++ post) ++ [r] := by
  have hnm : r ∉ pre ++ post := by
    intro hmem
    apply hr
    rcases List.mem_append.mp hmem with h1 | h1
    · exact List.mem_append.mpr (Or.inl h1)
    · exact List.mem_append.mpr (Or.inr (List.mem_cons_of_mem p h1))
  unfold replaceTemporarySession setAdd
  rw [removeFirstTemp_skip pre post p hp hpre, if_neg hnm]

/-- Witness for the amended C1: a single in-flight placeholder is replaced
by the real id. -/
theorem replaceTemporarySession_first_placeholder_witness :
    replaceTemporarySession ["new-session-1000"] "abc123" = ["abc123"] := by
  have h := replaceTemporarySession_first_placeholder [] []
    "new-session-1000" "abc123" (by decide) (by intro x hx; cases hx)
    (by decide)
  simpa using h


def demoCacheEntry : CacheEntry :=
  { messages := ["m"],
    pagination := { offset := 0, hasMore := false, total := 1 } }

def sigDemoIds : List String :=
  ["s0", "s1", "s2", "s3", "s4", "s5", "s6", "s7", "s8", "s9", "s10"]

/-- A signals-store state with 11 cached sessions in which the
currently-viewed session `s0` is the least recently accessed.  It is the
state reached by viewing `s0` first and then loading `s1` … `s10`. -/
def sigDemoState : SignalsState :=
  { currentSessionId := some "s0",
    sessionCache := sigDemoIds.map (fun id => (id, demoCacheEntry)),
    accessOrder := sigDemoIds }

/-- Claim C2 counterexample: the signals store's `evictIfNeeded` evicts
`accessOrder[0]` with no exemption for the currently-viewed session, so on
a state with 11 cached sessions whose LRU entry is the viewed one, the
viewed session's entry is removed from the cache. -/
theorem sigEvictIfNeeded_counterexample :
    MAX_CACHED_SESSIONS < sigDemoState.sessionCache.length ∧
    sigDemoState.currentSessionId = some "s0" ∧
    (assocLookup sigDemoState.sessionCache "s0").isSome = true ∧
    assocLookup (sigEvictIfNeeded sigDemoState).sessionCache "s0" =
      none := by decide

/-- `collectToEvict` only ever returns elements of its input list, in input
order (a sublist). -/
theorem collectToEvict_sublist (viewing : Option String) (count : Nat) :
    ∀ (l : List String) (acc : Nat),
      (collectToEvict viewing count l acc).Sublist l := by
  intro l
  induction l with
  | nil => intro acc; exact List.Sublist.refl []
  | cons y ys ih =>
    intro acc
    by_cases hv : some y = viewing
    · rw [collectToEvict, if_pos hv]
      exact (ih acc).cons y
    · rw [collectToEvict, if_neg hv]
      by_cases hstop : count - (acc + 1) ≤ MAX_CACHED_SESSIONS
      · rw [if_pos hstop]
        exact (List.nil_sublist ys).cons₂ y
      · rw [if_neg hstop]
        exact (ih (acc + 1)).cons₂ y

/-- The viewed session is never collected for eviction. -/
theorem collectToEvict_not_viewing (v : String) (count : Nat) :
    ∀ (l : List String) (acc : Nat),
      v ∉ collectToEvict (some v) count l acc := by
  intro l
  induction l with
  | nil => intro acc h; cases h
  | cons y ys ih =>
    intro acc h
    by_cases hv : some y = some v
    · rw [collectToEvict, if_pos hv] at h
      exact ih acc h
    · rw [collectToEvict, if_neg hv] at h
      have hyv : y ≠ v := fun he => hv (he ▸ rfl)
      by_cases hstop : count - (acc + 1) ≤ MAX_CACHED_SESSIONS
      · rw [if_pos hstop] at h
        rcases List.mem_singleton.mp h with rfl
        exact hyv rfl
      · rw [if_neg hstop] at h
        rcases List.mem_cons.mp h with rfl | h
        · exact hyv rfl
        · exact ih (acc + 1) h

/-- When the part of the access order before `rest` already holds enough
non-viewing entries to satisfy the break condition, the collection loop
stops inside it: everything collected comes from that part. -/
theorem collectToEvict_stops_in_prefix (viewing : Option String)
    (count : Nat) :
    ∀ (lp rest : List String) (acc : Nat),
      MAX_CACHED_SESSIONS + acc < count →
      count ≤ MAX_CACHED_SESSIONS + acc +
        (lp.filter (fun sid => some sid ≠ viewing)).length →
      ∀ x ∈ collectToEvict viewing count (lp ++ rest) acc, x ∈ lp := by
  intro lp
  induction lp with
  | nil =>
    intro rest acc hlt hle
    simp only [List.filter_nil, List.length_nil, Nat.add_zero] at hle
    omega
  | cons y ys ih =>
    intro rest acc hlt hle x hx
    rw [List.cons_append] at hx
    by_cases hv : some y = viewing
    · rw [collectToEvict, if_pos hv] at hx
      have hy : (decide (some y ≠ viewing)) = false := by simp [hv]
      rw [List.filter_cons, hy] at hle
      simp only [Bool.false_eq_true, if_false] at hle
      exact List.mem_cons_of_mem y (ih rest acc hlt hle x hx)
    · rw [collectToEvict, if_neg hv] at hx
      by_cases hstop : count - (acc + 1) ≤ MAX_CACHED_SESSIONS
      · rw [if_pos hstop] at hx
        rcases List.mem_singleton.mp hx with rfl
        exact List.mem_cons_self x ys
      · rw [if_neg hstop] at hx
        rcases List.mem_cons.mp hx with rfl | hx
        · exact List.mem_cons_self x ys
        · have hy : (decide (some y ≠ viewing)) = true := by simp [hv]
          rw [List.filter_cons, hy] at hle
          simp only [if_true, List.length_cons] at hle
          have hle' : count ≤ MAX_CACHED_SESSIONS + (acc + 1) +
              (ys.filter (fun sid => some sid ≠ viewing)).length := by
            omega
          have hlt' : MAX_CACHED_SESSIONS + (acc + 1) < count := by omega
          exact List.mem_cons_of_mem y (ih rest (acc + 1) hlt' hle' x hx)

/-- Either the collection loop broke with enough entries collected to get
the count within capacity, or it exhausted the access order and collected
every non-viewing entry. -/
theorem collectToEvict_break_or_all (viewing : Option String)
    (count : Nat) :
    ∀ (l : List String) (acc : Nat),
      MAX_CACHED_SESSIONS + acc < count →
      count ≤ MAX_CACHED_SESSIONS + acc +
          (collectToEvict viewing count l acc).length ∨
        collectToEvict viewing count l acc =
          l.filter (fun sid => some sid ≠ viewing) := by
  intro l
  induction l with
  | nil =>
    intro acc _
    right
    rfl
  | cons y ys ih =>
    intro acc hlt
    by_cases hv : some y = viewing
    · rw [collectToEvict, if_pos hv]
      have hy : (decide (some y ≠ viewing)) = false := by simp [hv]
      rw [List.filter_cons, hy]
      simp only [Bool.false_eq_true, if_false]
      exact ih acc hlt
    · rw [collectToEvict, if_neg hv]
      have hy : (decide (some y ≠ viewing)) = true := by simp [hv]
      by_cases hstop : count - (acc + 1) ≤ MAX_CACHED_SESSIONS
      · rw [if_pos hstop]
        left
        simp only [List.length_singleton]
        omega
      · rw [if_neg hstop]
        have hlt' : MAX_CACHED_SESSIONS + (acc + 1) < count := by omega
        rcases ih (acc + 1) hlt' with h | h
        · left
          simp only [List.length_cons]
          omega
        · right
          rw [List.filter_cons, hy]
          simp only [if_true]
          rw [h]


theorem keys_filter_notMem {α : Type} (l : List (String × α))
    (ts : List String) :
    (l.filter (fun e => e.1 ∉ ts)).map Prod.fst =
      (l.map Prod.fst).filter (fun k => k ∉ ts) := by
  induction l with
  | nil => rfl
  | cons a l ih =>
    rw [List.map_cons, List.filter_cons, List.filter_cons]
    by_cases h : a.1 ∈ ts
    · have h1 : (decide (a.1 ∉ ts)) = false := by simp [h]
      rw [h1]
      simp only [Bool.false_eq_true, if_false]
      exact ih
    · have h1 : (decide (a.1 ∉ ts)) = true := by simp [h]
      rw [h1]
      simp only [if_true, List.map_cons]
      rw [ih]

theorem length_filter_mem_add_notMem (l ts : List String) :
    (l.filter (fun x => x ∈ ts)).length +
      (l.filter (fun x => x ∉ ts)).length = l.length := by
  induction l with
  | nil => rfl
  | cons a l ih =>
    rw [List.filter_cons, List.filter_cons]
    by_cases h : a ∈ ts
    · have h1 : (decide (a ∈ ts)) = true := by simp [h]
      have h2 : (decide (a ∉ ts)) = false := by simp [h]
      rw [h1, h2]
      simp only [if_true, Bool.false_eq_true, if_false, List.length_cons]
      omega
    · have h1 : (decide (a ∈ ts)) = false := by simp [h]
      have h2 : (decide (a ∉ ts)) = true := by simp [h]
      rw [h1, h2]
      simp only [if_true, Bool.false_eq_true, if_false, List.length_cons]
      omega

theorem zEvictIfNeeded_eq_of_over (st : ZState)
    (hcap : ¬ st.sessionData.length ≤ MAX_CACHED_SESSIONS)
    (hne : collectToEvict st.viewingSessionId st.sessionData.length
      st.accessOrder 0 ≠ []) :
    zEvictIfNeeded st = { st with
      sessionData := st.sessionData.filter (fun e =>
        e.1 ∉ collectToEvict st.viewingSessionId st.sessionData.length
          st.accessOrder 0),
      accessOrder := (collectToEvict st.viewingSessionId
          st.sessionData.length st.accessOrder 0).foldl
        (fun l sid => l.erase sid) st.accessOrder } := by
  unfold zEvictIfNeeded
  rw [if_neg hcap, if_neg hne, foldl_filter_eq_filter]

/-- Claim C2 (amended): the zustand store's `_evictIfNeeded` satisfies the
claim — it never evicts the currently-viewed session, fires only under
capacity pressure, and afterwards the cached count is within `K` or equals
the minimum achievable given the current-view exemption (only the viewed
entry left).  The signals store's `evictIfNeeded` instead evicts the LRU
head unconditionally and violates the claim (see the counterexample). -/
theorem zEvictIfNeeded_spec (st : ZState) (hwf : ZWF st) :
    (∀ v, st.viewingSessionId = some v →
      assocLookup (zEvictIfNeeded st).sessionData v =
        assocLookup st.sessionData v) ∧
    ((zEvictIfNeeded st).sessionData.length ≤ MAX_CACHED_SESSIONS ∨
      ∃ v, st.viewingSessionId = some v ∧
        (zEvictIfNeeded st).sessionData.map Prod.fst = [v]) ∧
    (st.sessionData.length ≤ MAX_CACHED_SESSIONS → zEvictIfNeeded st = st) := by
  obtain ⟨hnd, hperm⟩ := hwf
  by_cases hcap : st.sessionData.length ≤ MAX_CACHED_SESSIONS
  · have hst : zEvictIfNeeded st = st := by
      unfold zEvictIfNeeded
      rw [if_pos hcap]
    refine ⟨?_, ?_, fun _ => hst⟩
    · intro v _
      rw [hst]
    · left
      rw [hst]
      exact hcap
  · have hlt : MAX_CACHED_SESSIONS + 0 < st.sessionData.length := by omega
    have haolen : st.accessOrder.length = st.sessionData.length := by
      rw [hperm.length_eq, List.length_map]
    by_cases hte0 : collectToEvict st.viewingSessionId
        st.sessionData.length st.accessOrder 0 = []
    · exfalso
      rcases collectToEvict_break_or_all st.viewingSessionId
        st.sessionData.length st.accessOrder 0 hlt with h | h
      · rw [hte0] at h
        simp only [List.length_nil, Nat.add_zero] at h
        omega
      · rw [hte0] at h
        rcases hv : st.viewingSessionId with _ | v
        · rw [hv] at h
          have : st.accessOrder.filter
              (fun sid => some sid ≠ (none : Option String)) =
              st.accessOrder := by
            refine List.filter_eq_self.mpr ?_
            intro a _
            simp
          rw [this] at h
          rw [← h] at haolen
          simp at haolen
          omega
        · rw [hv] at h
          have hsub : ∀ x ∈ st.accessOrder, x = v := by
            intro x hx
            by_contra hxv
            have hxmem : x ∈ st.accessOrder.filter
                (fun sid => some sid ≠ some v) := by
              refine List.mem_filter.mpr ⟨hx, ?_⟩
              simp [hxv]
            rw [← h] at hxmem
            cases hxmem
          have hmax : MAX_CACHED_SESSIONS = 10 := rfl
          have hlen1 : st.accessOrder.length ≤ 1 := by
            rcases hao : st.accessOrder with _ | ⟨a, l⟩
            · simp
            · rcases l with _ | ⟨b, l2⟩
              · simp
              · exfalso
                rw [hao] at hsub hnd
                have ha := hsub a (by simp)
                have hb := hsub b (by simp)
                rw [List.nodup_cons] at hnd
                exact hnd.1 (by rw [ha, ← hb]; simp)
          omega
    · have heq := zEvictIfNeeded_eq_of_over st hcap hte0
      have hkeys : (zEvictIfNeeded st).sessionData.map Prod.fst =
          (st.sessionData.map Prod.fst).filter
            (fun k => k ∉ collectToEvict st.viewingSessionId
              st.sessionData.length st.accessOrder 0) := by
        rw [heq]
        exact keys_filter_notMem st.sessionData _
      have hsl : (collectToEvict st.viewingSessionId
          st.sessionData.length st.accessOrder 0).Sublist
            st.accessOrder :=
        collectToEvict_sublist st.viewingSessionId
          st.sessionData.length st.accessOrder 0
      have hfme : st.accessOrder.filter
          (fun x => x ∈ collectToEvict st.viewingSessionId
            st.sessionData.length st.accessOrder 0) =
          collectToEvict st.viewingSessionId st.sessionData.length
            st.accessOrder 0 :=
        filter_mem_of_sublist hnd hsl
      have hlenkeys : (zEvictIfNeeded st).sessionData.length =
          (st.accessOrder.filter
            (fun x => x ∉ collectToEvict st.viewingSessionId
              st.sessionData.length st.accessOrder 0)).length := by
        have h1 : (zEvictIfNeeded st).sessionData.length =
            ((zEvictIfNeeded st).sessionData.map Prod.fst).length := by
          rw [List.length_map]
        rw [h1, hkeys]
        have h2 := (hperm.filter
          (fun k => k ∉ collectToEvict st.viewingSessionId
            st.sessionData.length st.accessOrder 0)).length_eq
        rw [← h2]
    
      refine ⟨?_, ?_, fun hc => absurd hc hcap⟩
      · intro v hv
        have hvnot : v ∉ collectToEvict st.viewingSessionId
            st.sessionData.length st.accessOrder 0 := by
          rw [hv]
          exact collectToEvict_not_viewing v st.sessionData.length
            st.accessOrder 0
        rw [heq]
        show assocLookup (st.sessionData.filter (fun e =>
          e.1 ∉ collectToEvict st.viewingSessionId
            st.sessionData.length st.accessOrder 0)) v =
          assocLookup st.sessionData v
        rw [← foldl_filter_eq_filter]
        exact assocLookup_foldl_filter _ st.sessionData v hvnot
      · have hcount := length_filter_mem_add_notMem st.accessOrder
          (collectToEvict st.viewingSessionId st.sessionData.length
            st.accessOrder 0)
        rw [hfme] at hcount
        rcases collectToEvict_break_or_all st.viewingSessionId
          st.sessionData.length st.accessOrder 0 hlt with h | h
        · left
          rw [hlenkeys]
          omega
        · rcases hv : st.viewingSessionId with _ | v
          · left
            rw [hlenkeys]
            have hall : st.accessOrder.filter
                (fun x => x ∉ collectToEvict st.viewingSessionId
                  st.sessionData.length st.accessOrder 0) = [] := by
              refine List.filter_eq_nil_iff.mpr ?_
              intro x hx
              simp only [decide_eq_true_eq, Decidable.not_not]
              rw [h]
              refine List.mem_filter.mpr ⟨hx, ?_⟩
              rw [hv]
              simp
            rw [hall]
            simp
          · have hcong : st.accessOrder.filter
                (fun x => x ∉ collectToEvict st.viewingSessionId
                  st.sessionData.length st.accessOrder 0) =
                st.accessOrder.filter (fun x => x = v) := by
              refine List.filter_congr ?_
              intro x hx
              have hiff : (x ∉ collectToEvict st.viewingSessionId
                  st.sessionData.length st.accessOrder 0) ↔ x = v := by
                rw [h, hv]
                constructor
                · intro hnmem
                  by_contra hxv
                  exact hnmem (List.mem_filter.mpr ⟨hx, by simp [hxv]⟩)
                · intro hxv hmem
                  have := (List.mem_filter.mp hmem).2
                  simp [hxv] at this
              simp only [decide_eq_decide]
              exact hiff
            rw [nodup_filter_eq_singleton st.accessOrder hnd v] at hcong
            by_cases hvin : v ∈ st.accessOrder
            · right
              refine ⟨v, rfl, ?_⟩
              rw [if_pos hvin] at hcong
              have hp2 : ((zEvictIfNeeded st).sessionData.map
                  Prod.fst).Perm [v] := by
                rw [hkeys, ← hcong]
                exact (hperm.filter _).symm
              exact List.perm_singleton.mp hp2
            · left
              rw [if_neg hvin] at hcong
              rw [hlenkeys, hcong]
              simp


def zDemoEntry : ZEntry :=
  { messages := ["m"], lastAccess := 0,
    pagination := { offset := 0, hasMore := false, total := 1 } }

/-- A zustand-store state with 11 cached sessions whose LRU entry `s0` is
the currently-viewed session. -/
def zDemoState : ZState :=
  { sessionData := sigDemoIds.map (fun id => (id, zDemoEntry)),
    viewingSessionId := some "s0",
    accessOrder := sigDemoIds }

/-- Witness for the amended C2: on the over-capacity state whose viewed
session is the LRU entry, the zustand eviction keeps the viewed entry and
brings the count within capacity. -/
theorem zEvictIfNeeded_spec_witness :
    assocLookup (zEvictIfNeeded zDemoState).sessionData "s0" =
      assocLookup zDemoState.sessionData "s0" ∧
    ((zEvictIfNeeded zDemoState).sessionData.length ≤ MAX_CACHED_SESSIONS ∨
      ∃ v, zDemoState.viewingSessionId = some v ∧
        (zEvictIfNeeded zDemoState).sessionData.map Prod.fst = [v]) := by
  have h := zEvictIfNeeded_spec zDemoState (by decide)
  exact ⟨h.1 "s0" rfl, h.2.1⟩

/-! ### Lemmas for get-after-put (C9) -/

theorem assocLookup_map_replace {α : Type} (l : List (String × α))
    (k : String) (v : α) (h : l.any (fun e => e.1 = k) = true) :
    assocLookup (l.map (fun e => if e.1 = k then (k, v) else e)) k =
      some v := by
  induction l with
  | nil => simp at h
  | cons a l ih =>
    by_cases hk : a.1 = k
    · simp [assocLookup, hk]
    · have h' : l.any (fun e => e.1 = k) = true := by
        rcases List.any_eq_true.mp h with ⟨x, hx, hxk⟩
        rcases List.mem_cons.mp hx with rfl | hx
        · exact absurd (by simpa using hxk) hk
        · exact List.any_eq_true.mpr ⟨x, hx, hxk⟩
      simp only [List.map_cons, if_neg hk]
      rw [assocLookup, if_neg hk]
      exact ih h'

theorem assocLookup_append_self {α : Type} (l : List (String × α))
    (k : String) (v : α) (h : l.any (fun e => e.1 = k) = false) :
    assocLookup (l ++ [(k, v)]) k = some v := by
  induction l with
  | nil => simp [assocLookup]
  | cons a l ih =>
    rw [List.any_cons] at h
    rcases Bool.or_eq_false_iff.mp h with ⟨h1, h2⟩
    have hk : ¬ a.1 = k := by simpa using h1
    rw [List.cons_append, assocLookup, if_neg hk]
    exact ih h2

theorem assocLookup_objUpsert {α : Type} (l : List (String × α))
    (k : String) (v : α) :
    assocLookup (objUpsert l k v) k = some v := by
  unfold objUpsert
  by_cases h : l.any (fun e => e.1 = k)
  · rw [if_pos h]
    exact assocLookup_map_replace l k v h
  · rw [if_neg h]
    exact assocLookup_append_self l k v (Bool.eq_false_iff.mpr h)

theorem length_objUpsert {α : Type} (l : List (String × α)) (k : String)
    (v : α) :
    (objUpsert l k v).length =
      if l.any (fun e => e.1 = k) then l.length else l.length + 1 := by
  unfold objUpsert
  by_cases h : l.any (fun e => e.1 = k) <;> simp [h]

theorem any_key_eq_mem {α : Type} (l : List (String × α)) (k : String) :
    l.any (fun e => e.1 = k) = true ↔ k ∈ l.map Prod.fst := by
  rw [List.any_eq_true]
  constructor
  · rintro ⟨x, hx, hxk⟩
    exact List.mem_map.mpr ⟨x, hx, by simpa using hxk⟩
  · intro hmem
    rcases List.mem_map.mp hmem with ⟨x, hx, hxk⟩
    exact ⟨x, hx, by simpa using hxk⟩

theorem filter_ne_of_not_mem (l : List String) (a : String) (h : a ∉ l) :
    l.filter (fun x => x ≠ a) = l :=
  List.filter_eq_self.mpr (fun x hx => by
    simp only [decide_eq_true_eq]
    exact fun hxa => h (hxa ▸ hx))

theorem length_filter_ne_of_mem_nodup (l : List String) (hnd : l.Nodup)
    (a : String) (ha : a ∈ l) :
    (l.filter (fun x => x ≠ a)).length = l.length - 1 := by
  induction l with
  | nil => cases ha
  | cons b l ih =>
    rw [List.nodup_cons] at hnd
    rw [List.filter_cons]
    by_cases hb : b = a
    · subst hb
      have h2 : (decide (b ≠ b)) = false := by simp
      rw [h2]
      simp only [Bool.false_eq_true, if_false, List.length_cons]
      rw [filter_ne_of_not_mem l b hnd.1]
      omega
    · have h2 : (decide (b ≠ a)) = true := by simp [hb]
      rw [h2]
      simp only [if_true, List.length_cons]
      have ha' : a ∈ l := by
        rcases List.mem_cons.mp ha with h | h
        · exact absurd h.symm hb
        · exact h
      rw [ih hnd.2 ha']
      have : 1 ≤ l.length := List.length_pos.mpr (List.ne_nil_of_mem ha')
      omega

theorem length_filter_viewing_split (l : List String)
    (viewing : Option String) :
    (l.filter (fun x => some x = viewing)).length +
      (l.filter (fun x => some x ≠ viewing)).length = l.length := by
  induction l with
  | nil => rfl
  | cons a l ih =>
    rw [List.filter_cons, List.filter_cons]
    by_cases h : some a = viewing
    · have h1 : (decide (some a = viewing)) = true := by simp [h]
      have h2 : (decide (some a ≠ viewing)) = false := by simp [h]
      rw [h1, h2]
      simp only [if_true, Bool.false_eq_true, if_false, List.length_cons]
      omega
    · have h1 : (decide (some a = viewing)) = false := by simp [h]
      have h2 : (decide (some a ≠ viewing)) = true := by simp [h]
      rw [h1, h2]
      simp only [if_true, Bool.false_eq_true, if_false, List.length_cons]
      omega

theorem length_filter_eq_viewing_le_one (l : List String) (hnd : l.Nodup)
    (viewing : Option String) :
    (l.filter (fun x => some x = viewing)).length ≤ 1 := by
  rcases viewing with _ | v
  · have h : l.filter (fun x => some x = (none : Option String)) = [] :=
      List.filter_eq_nil_iff.mpr (by intro x _; simp)
    simp [h]
  · have hcong : l.filter (fun x => some x = some v) =
        l.filter (fun x => x = v) := by
      refine List.filter_congr ?_
      intro x _
      simp
    rw [hcong, nodup_filter_eq_singleton l hnd v]
    by_cases h : v ∈ l <;> simp [h]

/-- Eviction never removes the most recently accessed session: the last
entry of the access order survives `_evictIfNeeded` whenever the access
order has no duplicates and matches the cached count. -/
theorem zEvict_preserves_last (st : ZState) (sid : String)
    (hnd : st.accessOrder.Nodup)
    (pre : List String) (hpre : st.accessOrder = pre ++ [sid])
    (hsid : sid ∉ pre)
    (hlen : st.accessOrder.length = st.sessionData.length) :
    assocLookup (zEvictIfNeeded st).sessionData sid =
      assocLookup st.sessionData sid := by
  by_cases hcap : st.sessionData.length ≤ MAX_CACHED_SESSIONS
  · have hst : zEvictIfNeeded st = st := by
      unfold zEvictIfNeeded
      rw [if_pos hcap]
    rw [hst]
  · by_cases hte0 : collectToEvict st.viewingSessionId
        st.sessionData.length st.accessOrder 0 = []
    · have hst : zEvictIfNeeded st = st := by
        unfold zEvictIfNeeded
        rw [if_neg hcap, if_pos hte0]
      rw [hst]
    · have heq := zEvictIfNeeded_eq_of_over st hcap hte0
      have hmax : MAX_CACHED_SESSIONS = 10 := rfl
      have hprelen : pre.length + 1 = st.accessOrder.length := by
        rw [hpre]
        simp
      have hprend : pre.Nodup := by
        rw [hpre] at hnd
        exact (List.nodup_append.mp hnd).1
      have hsplit := length_filter_viewing_split pre st.viewingSessionId
      have hone := length_filter_eq_viewing_le_one pre hprend
        st.viewingSessionId
      have hnv : st.sessionData.length ≤ MAX_CACHED_SESSIONS + 0 +
          (pre.filter (fun x => some x ≠ st.viewingSessionId)).length := by
        omega
      have hstop := collectToEvict_stops_in_prefix st.viewingSessionId
        st.sessionData.length pre [sid] 0 (by omega) hnv
      have hsidte : sid ∉ collectToEvict st.viewingSessionId
          st.sessionData.length st.accessOrder 0 := by
        intro hmem
        rw [hpre] at hmem
        exact hsid (hstop sid hmem)
      rw [heq]
      show assocLookup (st.sessionData.filter (fun e =>
        e.1 ∉ collectToEvict st.viewingSessionId
          st.sessionData.length st.accessOrder 0)) sid =
        assocLookup st.sessionData sid
      rw [← foldl_filter_eq_filter]
      exact assocLookup_foldl_filter _ st.sessionData sid hsidte


/-- The signals eviction also never removes the most recently accessed
session: the last entry of the access order keeps its cache entry. -/
theorem sigEvict_keeps_last_lookup (st2 : SignalsState) (sid : String)
    (pre : List String) (hpre : st2.accessOrder = pre ++ [sid])
    (hpresid : ∀ x ∈ pre, x ≠ sid) :
    assocLookup (sigEvictIfNeeded st2).sessionCache sid =
      assocLookup st2.sessionCache sid := by
  unfold sigEvictIfNeeded
  split
  · rfl
  · rename_i hlen
    split
    · rfl
    · rename_i b tl hcons
      rw [hpre] at hcons
      rcases pre with _ | ⟨p0, pre'⟩
      · exfalso
        rw [hpre] at hlen
        simp [MAX_CACHED_SESSIONS] at hlen
      · rw [List.cons_append] at hcons
        injection hcons with h1 h2
        have hbne : sid ≠ b := by
          rw [← h1]
          exact fun hh =>
            (hpresid p0 (List.mem_cons_self p0 pre')) hh.symm
        exact assocLookup_filter_ne st2.sessionCache sid b hbne

theorem sigSet_then_lookup (cur : Option String)
    (cache : List (String × CacheEntry)) (ao : List String) (sid : String)
    (messages : List RawMessage) (pg : PaginationInput) (hid : sid ≠ "") :
    assocLookup (sigSetSessionMessages ⟨cur, cache, ao⟩ sid messages
        pg).sessionCache sid =
      some { messages := messages,
             pagination := { offset := jsOrNat pg.offset 0,
                             hasMore := jsOrBool pg.hasMore false,
                             total := jsOrNat pg.total messages.length } } := by
  have hgoal : sigSetSessionMessages ⟨cur, cache, ao⟩ sid messages pg =
      sigEvictIfNeeded
        ⟨cur,
         objUpsert cache sid
           { messages := messages,
             pagination := { offset := jsOrNat pg.offset 0,
                             hasMore := jsOrBool pg.hasMore false,
                             total := jsOrNat pg.total messages.length } },
         sigUpdateAccessOrder ao sid⟩ := rfl
  have hao : sigUpdateAccessOrder ao sid =
      ao.filter (fun id => id ≠ sid) ++ [sid] := by
    unfold sigUpdateAccessOrder
    rw [if_neg hid]
  have hpresid : ∀ x ∈ ao.filter (fun id => id ≠ sid), x ≠ sid := by
    intro x hx
    have := (List.mem_filter.mp hx).2
    simpa using this
  rw [hgoal, sigEvict_keeps_last_lookup _ sid
    (ao.filter (fun id => id ≠ sid)) hao hpresid]
  exact assocLookup_objUpsert cache sid _

theorem zSet_then_get (data : List (String × ZEntry))
    (viewing : Option String) (ao : List String) (now : Nat) (sid : String)
    (messages : List RawMessage) (pg : PaginationInput)
    (hid : sid ≠ "") (hnd : ao.Nodup)
    (hperm : ao.Perm (data.map Prod.fst)) :
    zGetSessionMessages
      (zSetSessionMessages now ⟨data, viewing, ao⟩ sid messages pg) sid =
      messages := by
  have hzeq : zSetSessionMessages now ⟨data, viewing, ao⟩ sid messages pg =
      zEvictIfNeeded
        ⟨objUpsert data sid
           { messages := messages, lastAccess := now,
             pagination := { offset := jsOrNat pg.offset 0,
                             hasMore := jsOrBool pg.hasMore false,
                             total := jsOrNat pg.total messages.length } },
         viewing,
         zUpdateAccessOrder ao sid⟩ := by
    unfold zSetSessionMessages
    rw [if_neg hid]
  have hfnd : (ao.filter (fun id => id ≠ sid)).Nodup := hnd.filter _
  have hsidf : sid ∉ ao.filter (fun id => id ≠ sid) := by
    intro hmem
    have := (List.mem_filter.mp hmem).2
    simp at this
  have hnd2 : (ao.filter (fun id => id ≠ sid) ++ [sid]).Nodup := by
    refine List.Nodup.append hfnd (List.nodup_singleton sid) ?_
    intro a ha hb
    rcases List.mem_singleton.mp hb with rfl
    exact hsidf ha
  have hkeyslen : ao.length = data.length := by
    rw [hperm.length_eq, List.length_map]
  have hlen2 : (ao.filter (fun id => id ≠ sid) ++ [sid]).length =
      (objUpsert data sid
        { messages := messages, lastAccess := now,
          pagination := { offset := jsOrNat pg.offset 0,
                          hasMore := jsOrBool pg.hasMore false,
                          total := jsOrNat pg.total
                            messages.length } }).length := by
    rw [List.length_append, length_objUpsert]
    by_cases hany : data.any (fun e => e.1 = sid)
    · rw [if_pos hany]
      have hmemk : sid ∈ data.map Prod.fst := (any_key_eq_mem _ _).mp hany
      have hmema : sid ∈ ao := hperm.mem_iff.mpr hmemk
      rw [length_filter_ne_of_mem_nodup ao hnd sid hmema]
      have h1 : 1 ≤ ao.length :=
        List.length_pos.mpr (List.ne_nil_of_mem hmema)
      simp only [List.length_singleton]
      omega
    · rw [if_neg hany]
      have hnmemk : sid ∉ data.map Prod.fst :=
        fun hm => hany ((any_key_eq_mem _ _).mpr hm)
      have hnmema : sid ∉ ao := fun hm => hnmemk (hperm.mem_iff.mp hm)
      rw [filter_ne_of_not_mem ao sid hnmema]
      simp only [List.length_singleton]
      omega
  have hpres := zEvict_preserves_last
    ⟨objUpsert data sid
       { messages := messages, lastAccess := now,
         pagination := { offset := jsOrNat pg.offset 0,
                         hasMore := jsOrBool pg.hasMore false,
                         total := jsOrNat pg.total messages.length } },
     viewing,
     zUpdateAccessOrder ao sid⟩
    sid hnd2 (ao.filter (fun id => id ≠ sid)) rfl hsidf
    (by rw [show zUpdateAccessOrder ao sid =
        ao.filter (fun id => id ≠ sid) ++ [sid] from rfl]
        exact hlen2)
  rw [hzeq]
  unfold zGetSessionMessages
  rw [hpres, assocLookup_objUpsert]

/-- Claim C9: in both stores, a get for an id right after
`setSessionMessages(id, messages, pagination)` returns exactly the message
list that was put: the put itself (including the eviction check it
triggers) never evicts the entry it just wrote, and the stored list is the
argument unchanged. -/
theorem get_after_put_exact (sigSt : SignalsState) (zst : ZState)
    (now : Nat) (sessionId : String) (messages : List RawMessage)
    (pg : PaginationInput) (hid : sessionId ≠ "") (hwf : ZWF zst) :
    assocLookup (sigSetSessionMessages sigSt sessionId messages
        pg).sessionCache sessionId =
      some { messages := messages,
             pagination := { offset := jsOrNat pg.offset 0,
                             hasMore := jsOrBool pg.hasMore false,
                             total := jsOrNat pg.total messages.length } } ∧
    zGetSessionMessages (zSetSessionMessages now zst sessionId messages pg)
      sessionId = messages := by
  obtain ⟨hnd, hperm⟩ := hwf
  obtain ⟨cur, cache, ao⟩ := sigSt
  obtain ⟨data, viewing, zao⟩ := zst
  exact ⟨sigSet_then_lookup cur cache ao sessionId messages pg hid,
    zSet_then_get data viewing zao now sessionId messages pg hid hnd hperm⟩

/-- Witness for C9: putting `["hello"]` under a fresh id into the two
over-capacity demo states and reading it back. -/
theorem get_after_put_exact_witness :
    assocLookup (sigSetSessionMessages sigDemoState "s11" ["hello"]
        { offset := none, hasMore := none, total := none }).sessionCache
        "s11" =
      some { messages := ["hello"],
             pagination := { offset := 0, hasMore := false, total := 1 } } ∧
    zGetSessionMessages (zSetSessionMessages 5 zDemoState "s11" ["hello"]
        { offset := none, hasMore := none, total := none }) "s11" =
      ["hello"] :=
  get_after_put_exact sigDemoState zDemoState 5 "s11" ["hello"]
    { offset := none, hasMore := none, total := none }
    (by decide) (by decide)


/-- Claim C7: in every reachable pending set, each session owns at most one
unresolved permission request (a new one can only be registered after the
previous one resolved, because the session awaits the response promise),
while requests of different sessions coexist, and resolving a request id
removes only that entry and leaves every other session's entry in place. -/
theorem permProtocol_one_pending_per_session
    (st : List (String × String)) (h : PermReachable st) :
    (∀ sid, (st.filter (fun e => e.2 = sid)).length ≤ 1) ∧
    (∀ rid, ∀ e ∈ st, e.1 ≠ rid →
      e ∈ st.filter (fun e => e.1 ≠ rid)) := by
  constructor
  · induction h with
    | init => intro sid; simp
    | step hreach hstep ih =>
      cases hstep with
      | request sid rid hfresh hblocked =>
        rename_i st0
        intro sid0
        rw [List.filter_append]
        by_cases hs : sid0 = sid
        · subst hs
          have hempty : st0.filter (fun e => e.2 = sid0) = [] :=
            List.filter_eq_nil_iff.mpr (fun e he => by
              simp only [decide_eq_true_eq]
              exact hblocked e he)
          rw [hempty, List.nil_append]
          exact le_trans (List.length_filter_le _ _) (by simp)
        · have hone : ([(rid, sid)].filter (fun e => e.2 = sid0)) = [] := by
            simp [Ne.symm hs]
          rw [hone, List.append_nil]
          exact ih sid0
      | resolve rid =>
        intro sid0
        exact le_trans (List.Sublist.length_le
          ((List.filter_sublist _).filter _)) (ih sid0)
  · intro rid e he hne
    refine List.mem_filter.mpr ⟨he, ?_⟩
    simpa using hne

/-- Witness for C7: two sessions each holding one pending request is
reachable, and neither session holds two. -/
theorem permProtocol_one_pending_per_session_witness :
    ([("perm_1", "sess_a"), ("perm_2", "sess_b")].filter
        (fun e => e.2 = "sess_a")).length ≤ 1 ∧
    ("perm_1", "sess_a") ∈
      [("perm_1", "sess_a"), ("perm_2", "sess_b")].filter
        (fun e => e.1 ≠ "perm_2") := by
  have h0 : PermReachable ([] : List (String × String)) := .init
  have h1 : PermReachable [("perm_1", "sess_a")] := by
    have hs := PermStep.request ([] : List (String × String))
      "sess_a" "perm_1" (by intro e he; cases he) (by intro e he; cases he)
    have := PermReachable.step h0 hs
    simpa using this
  have h2 : PermReachable [("perm_1", "sess_a"), ("perm_2", "sess_b")] := by
    have hs := PermStep.request [("perm_1", "sess_a")] "sess_b" "perm_2"
      (by decide) (by decide)
    have := PermReachable.step h1 hs
    simpa using this
  have h := permProtocol_one_pending_per_session _ h2
  exact ⟨h.1 "sess_a",
    h.2 "perm_2" ("perm_1", "sess_a") (by decide) (by decide)⟩

end ClaudeCodeUI
